import Mathlib

/-!
Verification development for the CodeKeeper path-safety validator and
directory-replication engine (`src/main.py`).

The Python code is shallowly embedded:
* Python strings become `String`; all string primitives used by the code
  (`strip`, `split`, `lower`, `startswith`, `endswith`, `replace`,
  `Path(...).parts`, `Path(...).name`, `Path(...).parent`, `os.path.join`)
  are re-implemented over `String.data` (`List Char`) so that every
  definition is executable and kernel-reducible.  Python's `lower`/`strip`
  are Unicode-aware; the embedding models their behaviour on the ASCII
  inputs that occur in the program (the denylist and the exclusion
  patterns are pure ASCII).  The POSIX `//` double-slash root special case
  of `pathlib` is not modelled.
* Filesystem interaction of the validator is an explicit record `ValFS`:
  `resolve` models `str(Path(p).resolve())` in its `as_posix` rendering
  (on POSIX hosts `str` and `as_posix` coincide; the Windows-only
  backslash rendering of `str` is not modelled), `pathExists`, `isFile`
  and `mkdirOk` model `Path.exists`, `Path.is_file` and the success of
  `Path.mkdir(parents=True)`.  A raising `resolve` (caught by the code's
  bare `except`) is not modelled: `resolve` is total here.
* The replication engine is embedded as a pure function from an explicit
  source tree (`FSTree`), destination-state booleans, the injected
  decision, a timestamp string and a per-file failure oracle to a
  `CopyRun`: the returned value (or the raised cancellation message), the
  list of filesystem write effects in program order, and the list of
  progress-callback invocations.  Applying the effect list to a
  file-content map (`applyEffects`) gives the destination state.
-/

/-! ## String primitives (models of the Python string operations) -/

/-- Model of Python `str.split(sep)` for a one-character separator,
working on the character list.  `split` on the empty string yields
`[[]]`, exactly as Python's `"".split(',') == ['']`. -/
def splitOnChar (sep : Char) : List Char → List (List Char)
  | [] => [[]]
  | c :: cs =>
    if c = sep then [] :: splitOnChar sep cs
    else
      match splitOnChar sep cs with
      | [] => [[c]]
      | h :: t => (c :: h) :: t

theorem splitOnChar_ne_nil (sep : Char) (l : List Char) : splitOnChar sep l ≠ [] := by
  induction l with
  | nil => simp [splitOnChar]
  | cons c cs ih =>
    simp only [splitOnChar]
    split
    · simp
    · split
      · simp
      · simp

theorem splitOnChar_append (sep : Char) (a b : List Char) :
    splitOnChar sep (a ++ sep :: b) = splitOnChar sep a ++ splitOnChar sep b := by
  induction a with
  | nil => simp [splitOnChar]
  | cons c cs ih =>
    by_cases h : c = sep
    · subst h
      simp [splitOnChar, ih]
    · rcases hcs : splitOnChar sep cs with _ | ⟨h0, t0⟩
      · exact absurd hcs (splitOnChar_ne_nil sep cs)
      · simp [splitOnChar, if_neg h, ih, hcs]

/-- Model of Python `str.startswith`. -/
def strStartsWith (pre s : String) : Bool := pre.data.isPrefixOf s.data

/-- Model of Python `str.endswith`. -/
def strEndsWith (suf s : String) : Bool := suf.data.isSuffixOf s.data

/-- Model of Python `str.lower()` (ASCII case mapping; the inputs that the
program compares case-insensitively are ASCII). -/
def strLower (s : String) : String := ⟨s.data.map Char.toLower⟩

/-- Python whitespace test used by `str.strip()` (ASCII whitespace). -/
def isPySpace (c : Char) : Bool :=
  c == ' ' || c == '\t' || c == '\n' || c == '\r' || c == '\x0b' || c == '\x0c'

/-- Model of Python `str.strip()`. -/
def pyTrim (s : String) : String :=
  ⟨((s.data.dropWhile isPySpace).reverse.dropWhile isPySpace).reverse⟩

/-- Model of Python `s.split(',')`. -/
def pySplitComma (s : String) : List String :=
  (splitOnChar ',' s.data).map (fun c => ⟨c⟩)

/-- Model of `s.replace('\\', '/')` (one-character pattern and
replacement, as used on the denylist entries). -/
def backslashToSlash (s : String) : String :=
  ⟨s.data.map (fun c => if c == '\\' then '/' else c)⟩

/-- Model of Python `s[1:]` (drop the first code point). -/
def strDrop1 (s : String) : String := ⟨s.data.drop 1⟩

/-- Does the string start with `'/'`?  (Used by the `pathlib`/`os.path`
models below.) -/
def strStartsSlash (s : String) : Bool :=
  match s.data with
  | [] => false
  | c :: _ => c == '/'

/-- Does the string end with `'/'`? -/
def strEndsSlash (s : String) : Bool :=
  match s.data.getLast? with
  | none => false
  | some c => c == '/'

/-! ## `pathlib.PurePosixPath` model: `parts`, `name`, `parent`, join -/

/-- Keep a path component: `pathlib` drops empty components and single
dots. -/
def keepComp (c : List Char) : Bool := !(c == ([] : List Char)) && !(c == ['.'])

/-- The non-root components of a path, as character lists. -/
def pathCoreData (l : List Char) : List (List Char) :=
  (splitOnChar '/' l).filter keepComp

/-- The non-root components of a path. -/
def pathCore (s : String) : List (List Char) := pathCoreData s.data

/-- Model of `Path(s).parts` for POSIX paths: a leading `/` contributes a
root component `"/"`, then the non-empty, non-dot components. -/
def pathParts (s : String) : List String :=
  (if strStartsSlash s then ["/"] else []) ++ (pathCore s).map (fun c => ⟨c⟩)

/-- Model of `Path(s).name`: the last component, `""` for a bare root or
empty path. -/
def pathName (s : String) : String :=
  match (pathCore s).getLast? with
  | some c => ⟨c⟩
  | none => ""

/-- Join a non-empty component list with `/`. -/
def joinComps : List String → String
  | [] => ""
  | [x] => x
  | x :: xs => x ++ "/" ++ joinComps xs

/-- Model of `Path(s).parent` (on the unresolved path, exactly as the
code uses it). -/
def parentPath (s : String) : String :=
  let core := pathCore s
  if core.length ≤ 1 then (if strStartsSlash s then "/" else ".")
  else if strStartsSlash s then "/" ++ joinComps (core.dropLast.map (fun c => ⟨c⟩))
  else joinComps (core.dropLast.map (fun c => ⟨c⟩))

/-- Model of `os.path.join(a, b)` for POSIX (`posixpath.join`): an
absolute `b` discards `a`; otherwise a separator is inserted unless `a`
is empty or already ends with one. -/
def joinP (a b : String) : String :=
  if strStartsSlash b then b
  else if a == "" || strEndsSlash a then a ++ b
  else a ++ "/" ++ b

/-! ## Path Safety Validator (`PathValidator`) -/

/-- Validation reason codes.  The Python code returns German message
strings; each constructor stands for exactly one of them:
`emptyPath` ↦ "Pfad darf nicht leer sein.",
`dangerousSystemPath` ↦ "Gefährlicher Systempfad erkannt! …",
`rootDrive` ↦ "Root-Laufwerk als …-Pfad nicht erlaubt! …",
`insufficientDepth` ↦ "Backup-Pfad sollte mindestens 3 Verzeichnisebenen …",
`parentCreateFailed` ↦ "Keine Berechtigung für Verzeichnis: …" /
"Kann Verzeichnis nicht erstellen: …" (the two `except` arms),
`targetIsFile` ↦ "Pfad zeigt auf eine Datei, …",
`ok` ↦ "Pfad ist gültig." -/
inductive Reason where
  | emptyPath
  | dangerousSystemPath
  | rootDrive
  | insufficientDepth
  | parentCreateFailed
  | targetIsFile
  | ok
deriving DecidableEq, Repr

/-- The filesystem as seen by the validator. `resolve` models
`Path(p).resolve()` rendered as a string (`as_posix`; on POSIX hosts this
equals `str`), `pathExists` models `Path.exists`, `isFile` models
`Path.is_file`, and `mkdirOk` tells whether
`mkdir(parents=True, exist_ok=True)` on a path succeeds. -/
structure ValFS where
  resolve : String → String
  pathExists : String → Bool
  isFile : String → Bool
  mkdirOk : String → Bool

/-- The static per-OS denylist of `PathValidator.setup_dangerous_paths`
(`self.dangerous_paths.get(system, [])`). -/
def dangerous_paths (system : String) : List String :=
  match system with
  | "windows" =>
    ["c:\\windows", "c:\\program files", "c:\\program files (x86)",
     "c:\\system32", "c:\\syswow64", "c:\\boot", "c:\\recovery",
     "c:\\$recycle.bin", "c:\\pagefile.sys", "c:\\hiberfil.sys",
     "c:\\programdata\\microsoft", "c:\\users\\all users",
     "c:\\system volume information"]
  | "linux" =>
    ["/bin", "/sbin", "/usr/bin", "/usr/sbin", "/lib", "/lib64",
     "/etc", "/boot", "/sys", "/proc", "/dev", "/run", "/tmp",
     "/var/log", "/var/run", "/var/lib/dpkg", "/var/cache",
     "/usr/lib", "/usr/share", "/root"]
  | "darwin" =>
    ["/system", "/library", "/applications", "/usr/bin", "/usr/sbin",
     "/bin", "/sbin", "/etc", "/tmp", "/var", "/dev", "/private",
     "/volumes/macintosh hd/system"]
  | _ => []

/-- Model of `PathValidator.is_system_path`. -/
def is_system_path (fs : ValFS) (system path : String) : Bool :=
  if path == "" then false
  else
    let path_lower := strLower (fs.resolve path)
    (dangerous_paths system).any fun dangerous_path =>
      strStartsWith (strLower (backslashToSlash dangerous_path)) path_lower

/-- Model of `PathValidator.is_root_drive`. -/
def is_root_drive (fs : ValFS) (system path : String) : Bool :=
  let resolved := fs.resolve path
  if system == "windows" then
    decide (resolved.data.length ≤ 3) && strEndsWith ":\\" resolved
  else resolved == "/"

/-- Model of `PathValidator.has_sufficient_depth`. -/
def has_sufficient_depth (fs : ValFS) (path : String) (min_depth : Nat) : Bool :=
  decide (min_depth ≤ (pathParts (fs.resolve path)).length)

/-- Model of `PathValidator.validate_path`.  `path_type` is the role string
("backup", "source", "runtime").  The parent-creation step returns
`parentCreateFailed` when the parent does not exist and creating it
fails, covering both `except` arms of the code. -/
def validate_path (fs : ValFS) (system path path_type : String) : Bool × Reason :=
  if pyTrim path == "" then (false, .emptyPath)
  else
    let p := pyTrim path
    if is_system_path fs system p then (false, .dangerousSystemPath)
    else if is_root_drive fs system p then (false, .rootDrive)
    else if path_type == "backup" && !(has_sufficient_depth fs p 3) then
      (false, .insufficientDepth)
    else if !(fs.pathExists (parentPath p)) && !(fs.mkdirOk (parentPath p)) then
      (false, .parentCreateFailed)
    else if fs.pathExists p && fs.isFile p then (false, .targetIsFile)
    else (true, .ok)

/-- A host with no symlinks where the supplied paths are already
canonical, every directory exists, and no target is a regular file: the
simplest environment in which to evaluate the validator examples. -/
def plainFS : ValFS :=
  { resolve := fun p => p
    pathExists := fun _ => true
    isFile := fun _ => false
    mkdirOk := fun _ => true }

/-! ## Directory Replication Engine (`BackupEngine`) -/

/-- The default exclusion list `BackupEngine.exclude_defaults`. -/
def exclude_defaults : List String :=
  [".git", "__pycache__", "node_modules", ".vs", ".vscode", "bin", "obj"]

/-- Model of `BackupEngine.parse_exclude_patterns`.  Python's `list(set(...))`
produces the union without duplicates in an unspecified order; it is
modelled by `List.dedup` of the concatenation (same elements, no
duplicates). -/
def parse_exclude_patterns (exclude_string : String) : List String :=
  if exclude_string == "" then exclude_defaults
  else
    List.dedup ((((pySplitComma exclude_string).map pyTrim).filter
      (fun p => !(p == ""))) ++ exclude_defaults)

/-- Model of `BackupEngine.should_exclude`. -/
def should_exclude (path : String) (exclude_patterns : List String) : Bool :=
  let path_parts := pathParts path
  exclude_patterns.any fun pattern =>
    path_parts.contains pattern || pathName path == pattern ||
      (strStartsWith "*" pattern && strEndsWith (strDrop1 pattern) (pathName path))

/-! A source directory tree: named files with contents, and named
subdirectories.  `FSTree` models the portion of the filesystem that
`os.walk` traverses; `DirList` is the (ordered) list of subdirectory
entries. -/
mutual
inductive FSTree where
  | node (files : List (String × String)) (dirs : DirList)
inductive DirList where
  | nil
  | cons (name : String) (tree : FSTree) (rest : DirList)
end

/-- Entry names produced by a real directory listing: non-empty and free
of the path separator. -/
def goodNameB (s : String) : Bool := !(s == "") && !(s.data.contains '/')

/-! Well-formed tree: every file and directory name is a real entry
name. -/
mutual
def wfTree : FSTree → Bool
  | .node files dirs => files.all (fun f => goodNameB f.1) && wfDirs dirs
def wfDirs : DirList → Bool
  | .nil => true
  | .cons name t rest => goodNameB name && wfTree t && wfDirs rest
end

/-! The pre-pass file count `sum(len(files) for r, d, files in os.walk(source))`
over the FULL tree — no exclusion filtering is applied. -/
mutual
def totalFiles : FSTree → Nat
  | .node files dirs => files.length + totalFilesL dirs
def totalFilesL : DirList → Nat
  | .nil => 0
  | .cons _ t rest => totalFiles t + totalFilesL rest
end

/-- Filesystem write effects of a replication run, in program order.
`mkdirs p` stands for `os.makedirs(p, exist_ok=True)` (including the
`if not os.path.exists(dest_dir)`-guarded call inside the loop, which is
at most a directory creation); `write p c` stands for
`shutil.copy2(srcfile, p)` writing content `c`; `rmtree p` stands for
`shutil.rmtree(p)`. -/
inductive Effect where
  | mkdirs (p : String)
  | write (p : String) (content : String)
  | rmtree (p : String)
deriving DecidableEq, Repr

/-- Destination state as a map from file path to content.  `mkdirs` does
not change any file; `write` sets one file; `rmtree` removes every file
at or below the removed path. -/
def applyEffect (fs : String → Option String) : Effect → (String → Option String)
  | .mkdirs _ => fs
  | .write p c => fun q => if q == p then some c else fs q
  | .rmtree p => fun q =>
      if q == p || (p.data ++ ['/']).isPrefixOf q.data then none else fs q

def applyEffects (es : List Effect) (fs : String → Option String) : String → Option String :=
  es.foldl applyEffect fs

/-- Result of one `copy_directory` call: the returned pair or the raised
exception message, the effect trace, and the `(copied, total)` arguments
of every `progress_callback` invocation in order. -/
structure CopyRun where
  result : Except String (Nat × String)
  effects : List Effect
  progress : List (Nat × Nat)
deriving Repr

/-- The inner `for file in files:` loop of `copy_directory`: skip
excluded files; a failing `shutil.copy2` (oracle `fails`) is caught and
only logged; a successful copy writes the file, increments the counter
and invokes the progress callback with `(copied, total)`. -/
def copyFiles (patterns : List String) (fails : String → Bool) (total : Nat)
    (root destDir : String) : Nat → List (String × String) → CopyRun
  | copied, [] => ⟨.ok (copied, destDir), [], []⟩
  | copied, (fname, content) :: rest =>
    if should_exclude (joinP root fname) patterns then
      copyFiles patterns fails total root destDir copied rest
    else if fails (joinP root fname) then
      copyFiles patterns fails total root destDir copied rest
    else
      let out := copyFiles patterns fails total root destDir (copied + 1) rest
      ⟨out.result, Effect.write (joinP destDir fname) content :: out.effects,
       (copied + 1, total) :: out.progress⟩

/-! The `os.walk(source)` copy loop, top-down: for each visited directory
(paths built with `os.path.join` from the walk root), subdirectories for
which `should_exclude` holds are pruned before descending, the
destination directory is created, and the files are copied.  `walkT`
processes one visited directory, `walkL` its (pruned) subdirectory
entries in order.  The `copied` counter is threaded exactly as in the
code. -/
mutual
def walkT (patterns : List String) (fails : String → Bool) (total : Nat) :
    FSTree → String → String → Nat → CopyRun
  | .node files dirs, root, destDir, copied =>
    let f := copyFiles patterns fails total root destDir copied files
    let rest := walkL patterns fails total dirs root destDir
      (match f.result with | .ok (n, _) => n | .error _ => copied)
    ⟨rest.result, Effect.mkdirs destDir :: (f.effects ++ rest.effects),
     f.progress ++ rest.progress⟩
def walkL (patterns : List String) (fails : String → Bool) (total : Nat) :
    DirList → String → String → Nat → CopyRun
  | .nil, _, destDir, copied => ⟨.ok (copied, destDir), [], []⟩
  | .cons name t rest, root, destDir, copied =>
    if should_exclude (joinP root name) patterns then
      walkL patterns fails total rest root destDir copied
    else
      let sub := walkT patterns fails total t (joinP root name) (joinP destDir name) copied
      let r := walkL patterns fails total rest root destDir
        (match sub.result with | .ok (n, _) => n | .error _ => copied)
      ⟨r.result, sub.effects ++ r.effects, sub.progress ++ r.progress⟩
end

/-- The exception message of the declined-overwrite `raise`. -/
def cancelMsg : String :=
  "Deployment abgebrochen: Benutzer hat Überschreibung abgelehnt"

/-- Contiguous-substring test (model of Python's `in` on strings). -/
def containsSeq (n : List Char) : List Char → Bool
  | [] => n.isPrefixOf []
  | c :: rest => n.isPrefixOf (c :: rest) || containsSeq n rest

/-- The test the GUI caller (`deploy_to_runtime`) applies to a caught
exception to distinguish a user cancellation from a failure:
`"abgebrochen" in str(e).lower()`. -/
def deployCancelCheck (msg : String) : Bool :=
  containsSeq "abgebrochen".data (strLower msg).data

/-- Model of `BackupEngine.copy_directory`.

Explicit-state parameters: `tree` is the source directory tree read by
`os.walk`; `destExists` and `destNonEmpty` model
`os.path.exists(destination)` and `os.listdir(destination)` being
non-empty; `decision` is the injected yes/no answer of the confirmation
dialog; `timestamp` is `datetime.now().strftime("%Y%m%d_%H%M%S")`;
`fails` is the per-file oracle for `shutil.copy2` raising.

Unrecoverable OS failures of `shutil.rmtree`/`os.makedirs` and an
unreadable source root are not modelled (the run would raise there);
the only modelled exception is the declined-overwrite `raise`. -/
def copy_directory (source destination exclude_string : String) (tree : FSTree)
    (destExists destNonEmpty decision : Bool) (timestamp : String)
    (operation_type : String) (fails : String → Bool) : CopyRun :=
  let patterns := parse_exclude_patterns exclude_string
  let total := totalFiles tree
  if operation_type == "backup" then
    let final := joinP destination (pathName source ++ "_" ++ timestamp)
    let w := walkT patterns fails total tree source final 0
    ⟨w.result, Effect.mkdirs final :: w.effects, w.progress⟩
  else
    if destExists && destNonEmpty then
      if !decision then ⟨.error cancelMsg, [], []⟩
      else
        let w := walkT patterns fails total tree source destination 0
        ⟨w.result, Effect.rmtree destination :: Effect.mkdirs destination :: w.effects,
         w.progress⟩
    else
      let w := walkT patterns fails total tree source destination 0
      ⟨w.result, Effect.mkdirs destination :: w.effects, w.progress⟩

/-! ## Validator theorems -/

/-- The validator's checks as an ordered list of (failure condition,
reason), exactly the order of the claims and of `validate_path`. -/
def checkSeq (fs : ValFS) (system path path_type : String) : List (Bool × Reason) :=
  let p := pyTrim path
  [ (p == "", .emptyPath),
    (is_system_path fs system p, .dangerousSystemPath),
    (is_root_drive fs system p, .rootDrive),
    (path_type == "backup" && !(has_sufficient_depth fs p 3), .insufficientDepth),
    (!(fs.pathExists (parentPath p)) && !(fs.mkdirOk (parentPath p)), .parentCreateFailed),
    (fs.pathExists p && fs.isFile p, .targetIsFile) ]

/-- First failing check wins; all checks passing yields `(true, ok)`. -/
def firstFail : List (Bool × Reason) → Bool × Reason
  | [] => (true, .ok)
  | (b, r) :: rest => if b then (false, r) else firstFail rest

theorem validate_path_eq_firstFail (fs : ValFS) (system path path_type : String) :
    validate_path fs system path path_type = firstFail (checkSeq fs system path path_type) := by
  simp only [validate_path, checkSeq, firstFail]

/-- C3: `validate` performs its checks in the fixed order (empty input,
denylist prefix, root drive, Backup-only depth, parent-directory
creation, target-is-a-regular-file) and short-circuits, returning the
reason of the first failing check; `validate("", Backup)` yields
`(false, EmptyPath)` and `validate("/", Backup)` on a Unix-like host
yields `(false, RootDrive)`. -/
theorem C3_check_order_and_examples :
    (∀ (fs : ValFS) (system path path_type : String),
      validate_path fs system path path_type =
        firstFail (checkSeq fs system path path_type)) ∧
    validate_path plainFS "linux" "" "backup" = (false, .emptyPath) ∧
    validate_path plainFS "linux" "/" "backup" = (false, .rootDrive) :=
  ⟨validate_path_eq_firstFail, by decide, by decide⟩

/-- C2: for every non-blank path, `validate` returns
`(false, DangerousSystemPath)` exactly when the resolved,
separator- and case-normalized path starts with an entry of the
per-OS denylist; and `validate("/etc/foo", Backup)` on a Linux host
returns `(false, DangerousSystemPath)`. -/
theorem C2_dangerous_iff_denylist :
    (∀ (fs : ValFS) (system path path_type : String), pyTrim path ≠ "" →
      (validate_path fs system path path_type = (false, .dangerousSystemPath) ↔
        ∃ d ∈ dangerous_paths system,
          strStartsWith (strLower (backslashToSlash d))
            (strLower (fs.resolve (pyTrim path))) = true)) ∧
    validate_path plainFS "linux" "/etc/foo" "backup" = (false, .dangerousSystemPath) := by
  refine ⟨?_, by decide⟩
  intro fs system path path_type h
  have hne : (pyTrim path == "") = false := by
    simpa using h
  have hsys : is_system_path fs system (pyTrim path) = true ↔
      ∃ d ∈ dangerous_paths system,
        strStartsWith (strLower (backslashToSlash d))
          (strLower (fs.resolve (pyTrim path))) = true := by
    simp [is_system_path, hne, List.any_eq_true]
  simp only [validate_path, hne, Bool.false_eq_true, if_false]
  by_cases hs : is_system_path fs system (pyTrim path) = true
  · rw [if_pos hs]
    exact iff_of_true rfl (hsys.mp hs)
  · rw [if_neg hs]
    refine iff_of_false ?_ (fun hx => hs (hsys.mpr hx))
    split_ifs <;> simp

/-- C4 counterexample: on a Linux host where `/home/user` exists,
`validate("/home/user/a", Backup)` returns `(true, Ok)` — the resolved
path has 4 components (the POSIX root counts), so the claimed
`(false, InsufficientDepth)` does not occur. -/
theorem C4_counterexample :
    validate_path plainFS "linux" "/home/user/a" "backup" = (true, .ok) ∧
    validate_path plainFS "linux" "/home/user/a" "backup" ≠ (false, .insufficientDepth) := by
  decide

/-- Helper: an `InsufficientDepth` verdict can only come from the
Backup-role depth check with fewer than 3 resolved components. -/
theorem insufficientDepth_source (fs : ValFS) (system path path_type : String)
    (hEq : validate_path fs system path path_type = (false, .insufficientDepth)) :
    path_type = "backup" ∧ ¬ 3 ≤ (pathParts (fs.resolve (pyTrim path))).length := by
  revert hEq
  simp only [validate_path]
  split_ifs with h1 h2 h3 h4 h5 h6 <;> intro hEq
  all_goals simp only [Prod.mk.injEq, reduceCtorEq, and_false, false_and] at hEq
  rw [Bool.and_eq_true] at h4
  rcases h4 with ⟨hb, hd⟩
  refine ⟨by simpa using hb, ?_⟩
  simp [has_sufficient_depth] at hd
  omega

/-- C4 (amended): the minimum-depth policy applies only to the Backup
role and requires at least 3 components of the resolved path, where the
POSIX root counts as one component: a non-Backup role can never produce
`InsufficientDepth`; `InsufficientDepth` implies the role was Backup and
the resolved component count was below 3; `/home` (2 components) fails
for Backup but validates for Source, and `/home/user/a` (4 components)
passes the depth check. -/
theorem C4_depth_policy_amended :
    (∀ (fs : ValFS) (system path path_type : String), path_type ≠ "backup" →
      validate_path fs system path path_type ≠ (false, .insufficientDepth)) ∧
    (∀ (fs : ValFS) (system path path_type : String),
      validate_path fs system path path_type = (false, .insufficientDepth) →
        path_type = "backup" ∧
        ¬ 3 ≤ (pathParts (fs.resolve (pyTrim path))).length) ∧
    validate_path plainFS "linux" "/home" "backup" = (false, .insufficientDepth) ∧
    validate_path plainFS "linux" "/home" "source" = (true, .ok) ∧
    validate_path plainFS "linux" "/home/user/a" "backup" = (true, .ok) := by
  refine ⟨?_, insufficientDepth_source, by decide, by decide, by decide⟩
  intro fs system path path_type hty hEq
  exact hty (insufficientDepth_source fs system path path_type hEq).1

/-- C4 witness: the amended theorem applied at a concrete non-Backup
role. -/
theorem C4_depth_policy_amended_witness :
    validate_path plainFS "linux" "/home" "source" ≠ (false, .insufficientDepth) :=
  C4_depth_policy_amended.1 plainFS "linux" "/home" "source" (by decide)

/-- C2 witness: the iff applied at the concrete Linux example. -/
theorem C2_dangerous_iff_denylist_witness :
    validate_path plainFS "linux" "/etc/foo" "backup" = (false, .dangerousSystemPath) ↔
      ∃ d ∈ dangerous_paths "linux",
        strStartsWith (strLower (backslashToSlash d))
          (strLower (plainFS.resolve (pyTrim "/etc/foo"))) = true :=
  C2_dangerous_iff_denylist.1 plainFS "linux" "/etc/foo" "backup" (by decide)

/-! ## Exclusion-pattern theorems -/

/-- C7: `shouldExclude` is true exactly when some path segment equals a
pattern, or the leaf name equals a pattern, or a pattern begins with `*`
and the leaf name ends with the pattern's remainder; `build.log` matches
`*.log`, `build.txt` does not, and any candidate containing an excluded
segment (a file nested at any depth under a matching directory) is
excluded. -/
theorem should_exclude_iff (path : String) (pats : List String) :
    should_exclude path pats = true ↔
      ∃ pattern ∈ pats,
        pattern ∈ pathParts path ∨ pathName path = pattern ∨
          (strStartsWith "*" pattern = true ∧
            strEndsWith (strDrop1 pattern) (pathName path) = true) := by
  simp only [should_exclude, List.any_eq_true, Bool.or_eq_true, Bool.and_eq_true,
    List.contains, List.elem_iff, beq_iff_eq]
  constructor
  · rintro ⟨p, hp, h⟩
    exact ⟨p, hp, by tauto⟩
  · rintro ⟨p, hp, h⟩
    exact ⟨p, hp, by tauto⟩

/-- A candidate one of whose path segments equals a pattern of the set
is excluded. -/
theorem should_exclude_of_segment {path pattern : String} {pats : List String}
    (hmem : pattern ∈ pats) (hseg : pattern ∈ pathParts path) :
    should_exclude path pats = true :=
  (should_exclude_iff path pats).mpr ⟨pattern, hmem, Or.inl hseg⟩

theorem C7_should_exclude_characterization :
    (∀ (path : String) (pats : List String),
      should_exclude path pats = true ↔
        ∃ pattern ∈ pats,
          pattern ∈ pathParts path ∨ pathName path = pattern ∨
            (strStartsWith "*" pattern = true ∧
              strEndsWith (strDrop1 pattern) (pathName path) = true)) ∧
    should_exclude "build.log" ["*.log"] = true ∧
    should_exclude "build.txt" ["*.log"] = false ∧
    (∀ (path : String) (pats : List String) (pattern : String),
      pattern ∈ pats → pattern ∈ pathParts path → should_exclude path pats = true) :=
  ⟨should_exclude_iff, by decide, by decide,
    fun _ _ _ hmem hseg => should_exclude_of_segment hmem hseg⟩

/-- C7 witness: a file nested two levels below a `.git` directory
segment is excluded under the default pattern set. -/
theorem C7_should_exclude_witness :
    should_exclude "work/.git/objects/ab/cd" exclude_defaults = true :=
  C7_should_exclude_characterization.2.2.2 "work/.git/objects/ab/cd" exclude_defaults
    ".git" (by decide) (by decide)

/-- C8: `parseExclusions` splits on commas, trims, drops empties, unions
with the fixed default set and deduplicates: `parseExclusions("")` is
exactly the default set; `parseExclusions("foo, bar")` is
`{foo, bar} ∪ defaults` with no duplicates; every result contains every
default pattern. -/
theorem C8_parse_exclusions :
    parse_exclude_patterns "" = exclude_defaults ∧
    (∀ x : String, x ∈ parse_exclude_patterns "foo, bar" ↔
      (x = "foo" ∨ x = "bar" ∨ x ∈ exclude_defaults)) ∧
    (∀ raw : String, (parse_exclude_patterns raw).Nodup) ∧
    (∀ (raw x : String), x ∈ exclude_defaults → x ∈ parse_exclude_patterns raw) := by
  have hfb : parse_exclude_patterns "foo, bar" = ["foo", "bar"] ++ exclude_defaults := by
    decide
  refine ⟨rfl, ?_, ?_, ?_⟩
  · intro x
    rw [hfb]
    simp [exclude_defaults, or_assoc]
  · intro raw
    by_cases h : raw == ""
    · rw [parse_exclude_patterns, if_pos h]
      decide
    · rw [parse_exclude_patterns, if_neg h]
      exact List.nodup_dedup _
  · intro raw x hx
    by_cases h : raw == ""
    · rw [parse_exclude_patterns, if_pos h]
      exact hx
    · rw [parse_exclude_patterns, if_neg h]
      exact List.mem_dedup.mpr (List.mem_append_right _ hx)

/-- C8 witness: the default `.git` pattern is in the parse of a
non-empty raw string. -/
theorem C8_parse_exclusions_witness :
    ".git" ∈ parse_exclude_patterns "foo" :=
  C8_parse_exclusions.2.2.2 "foo" ".git" (by decide)

/-! ## Replication-engine theorems -/

/-- C1: a Deploy-kind (`"runtime"`) replicate onto an existing,
non-empty destination with the decision provider answering `false`
raises the fixed cancellation message before performing any filesystem
effect: the effect trace is empty, so every destination file map is left
byte-for-byte unchanged, and the message satisfies the caller's
cancellation test (`"abgebrochen" in str(e).lower()`), which is how the
caller distinguishes a user cancellation from a copy error. -/
theorem C1_deploy_declined_cancelled_untouched :
    (∀ (source destination raw timestamp : String) (tree : FSTree)
        (fails : String → Bool),
      copy_directory source destination raw tree true true false timestamp
        "runtime" fails = ⟨.error cancelMsg, [], []⟩) ∧
    deployCancelCheck cancelMsg = true ∧
    (∀ (fs : String → Option String), applyEffects [] fs = fs) := by
  refine ⟨?_, by decide, fun fs => rfl⟩
  intro source destination raw timestamp tree fails
  rfl

/-- The files of one directory that the copy loop will actually copy:
not excluded, and `shutil.copy2` succeeds on them. -/
def fileSucc (patterns : List String) (fails : String → Bool) (root : String)
    (files : List (String × String)) : Nat :=
  (files.filter (fun f =>
    !(should_exclude (joinP root f.1) patterns) && !(fails (joinP root f.1)))).length

/-! Declarative count of successfully copied files over the pruned
traversal: per directory the non-excluded, non-failing files, descending
only into non-excluded subdirectories. -/
mutual
def succCountT (patterns : List String) (fails : String → Bool) : FSTree → String → Nat
  | .node files dirs, root =>
    fileSucc patterns fails root files + succCountL patterns fails dirs root
def succCountL (patterns : List String) (fails : String → Bool) : DirList → String → Nat
  | .nil, _ => 0
  | .cons name t rest, root =>
    (if should_exclude (joinP root name) patterns then 0
     else succCountT patterns fails t (joinP root name)) +
      succCountL patterns fails rest root
end

theorem copyFiles_result (patterns : List String) (fails : String → Bool) (total : Nat)
    (root destDir : String) :
    ∀ (files : List (String × String)) (copied : Nat),
      (copyFiles patterns fails total root destDir copied files).result =
        .ok (copied + fileSucc patterns fails root files, destDir)
  | [], copied => by simp [copyFiles, fileSucc]
  | (fname, content) :: rest, copied => by
    have ih := copyFiles_result patterns fails total root destDir rest
    by_cases h1 : should_exclude (joinP root fname) patterns
    · simp [copyFiles, h1, fileSucc, List.filter_cons, ih copied]
    · by_cases h2 : fails (joinP root fname)
      · simp [copyFiles, h1, h2, fileSucc, List.filter_cons, ih copied]
      · simp only [copyFiles, h1, h2, Bool.false_eq_true, if_false, ite_false]
        rw [ih (copied + 1)]
        simp only [fileSucc, List.filter_cons, h1, h2]
        simp [fileSucc]
        omega

theorem range_map_add (a b cp total : Nat) :
    (List.range (a + b)).map (fun i => (cp + i + 1, total)) =
      (List.range a).map (fun i => (cp + i + 1, total)) ++
        (List.range b).map (fun i => (cp + a + i + 1, total)) := by
  rw [List.range_add, List.map_append, List.map_map]
  congr 1
  apply List.map_congr_left
  intro x _
  simp only [Function.comp_apply, Prod.mk.injEq, and_true]
  omega

theorem copyFiles_progress (patterns : List String) (fails : String → Bool) (total : Nat)
    (root destDir : String) :
    ∀ (files : List (String × String)) (copied : Nat),
      (copyFiles patterns fails total root destDir copied files).progress =
        (List.range (fileSucc patterns fails root files)).map
          (fun i => (copied + i + 1, total))
  | [], copied => by simp [copyFiles, fileSucc]
  | (fname, content) :: rest, copied => by
    have ih := copyFiles_progress patterns fails total root destDir rest
    by_cases h1 : should_exclude (joinP root fname) patterns
    · simp [copyFiles, h1, fileSucc, List.filter_cons, ih copied]
    · by_cases h2 : fails (joinP root fname)
      · simp [copyFiles, h1, h2, fileSucc, List.filter_cons, ih copied]
      · simp only [copyFiles, h1, h2, Bool.false_eq_true, if_false, ite_false]
        rw [show fileSucc patterns fails root ((fname, content) :: rest) =
            fileSucc patterns fails root rest + 1 by
          simp [fileSucc, List.filter_cons, h1, h2]]
        rw [List.range_succ_eq_map, List.map_cons, List.map_map]
        simp only [ih (copied + 1), List.cons.injEq]
        constructor
        · simp
        · apply List.map_congr_left
          intro x _
          simp only [Function.comp_apply, Nat.succ_eq_add_one, Prod.mk.injEq, and_true]
          omega

mutual
theorem walkT_spec (patterns : List String) (fails : String → Bool) (total : Nat) :
    ∀ (t : FSTree) (root destDir : String) (copied : Nat),
      (walkT patterns fails total t root destDir copied).result =
        .ok (copied + succCountT patterns fails t root, destDir) ∧
      (walkT patterns fails total t root destDir copied).progress =
        (List.range (succCountT patterns fails t root)).map
          (fun i => (copied + i + 1, total))
  | .node files dirs, root, destDir, copied => by
    have hf := copyFiles_result patterns fails total root destDir files copied
    have hfp := copyFiles_progress patterns fails total root destDir files copied
    have ih := walkL_spec patterns fails total dirs root destDir
      (copied + fileSucc patterns fails root files)
    simp only [walkT, hf, hfp, succCountT]
    constructor
    · rw [ih.1]
      simp only [Except.ok.injEq, Prod.mk.injEq, and_true]
      omega
    · rw [ih.2, range_map_add]
theorem walkL_spec (patterns : List String) (fails : String → Bool) (total : Nat) :
    ∀ (l : DirList) (root destDir : String) (copied : Nat),
      (walkL patterns fails total l root destDir copied).result =
        .ok (copied + succCountL patterns fails l root, destDir) ∧
      (walkL patterns fails total l root destDir copied).progress =
        (List.range (succCountL patterns fails l root)).map
          (fun i => (copied + i + 1, total))
  | .nil, root, destDir, copied => by simp [walkL, succCountL]
  | .cons name t rest, root, destDir, copied => by
    by_cases hx : should_exclude (joinP root name) patterns
    · have ih := walkL_spec patterns fails total rest root destDir copied
      simp [walkL, hx, succCountL, ih.1, ih.2]
    · have iht := walkT_spec patterns fails total t (joinP root name)
        (joinP destDir name) copied
      have ihl := walkL_spec patterns fails total rest root destDir
        (copied + succCountT patterns fails t (joinP root name))
      simp only [walkL, hx, Bool.false_eq_true, if_false, ite_false, iht.1, iht.2,
        succCountL]
      constructor
      · rw [ihl.1]
        simp only [Except.ok.injEq, Prod.mk.injEq, and_true]
        omega
      · rw [ihl.2, range_map_add]
end

/-- C9: a per-file copy failure never aborts a replicate run: for Backup
kind (and for Deploy kind whenever the run proceeds past the
confirmation) the result is always `ok`, whatever the failure oracle
says, and the returned count is exactly the number of eligible
(non-excluded, pruning-aware) files whose copy succeeded. -/
theorem C9_per_file_failures_nonfatal :
    (∀ (source destination raw timestamp : String) (tree : FSTree)
        (fails : String → Bool) (destExists destNonEmpty decision : Bool),
      (copy_directory source destination raw tree destExists destNonEmpty decision
          timestamp "backup" fails).result =
        .ok (succCountT (parse_exclude_patterns raw) fails tree source,
          joinP destination (pathName source ++ "_" ++ timestamp))) ∧
    (∀ (source destination raw timestamp : String) (tree : FSTree)
        (fails : String → Bool) (destExists destNonEmpty : Bool),
      (copy_directory source destination raw tree destExists destNonEmpty true
          timestamp "runtime" fails).result =
        .ok (succCountT (parse_exclude_patterns raw) fails tree source, destination)) := by
  constructor
  · intro source destination raw timestamp tree fails de dne dec
    have h := (walkT_spec (parse_exclude_patterns raw) fails (totalFiles tree) tree
      source (joinP destination (pathName source ++ "_" ++ timestamp)) 0).1
    simp [copy_directory, h]
  · intro source destination raw timestamp tree fails de dne
    have h := (walkT_spec (parse_exclude_patterns raw) fails (totalFiles tree) tree
      source destination 0).1
    by_cases hd : (de && dne) = true
    · simp [copy_directory, hd, h]
    · simp [copy_directory, hd, h]

/-- A concrete source tree `{a.txt, .git/x}`: one eligible file, two
files in total. -/
def demoTree : FSTree :=
  .node [("a.txt", "A")] (.cons ".git" (.node [("x", "X")] .nil) .nil)

/-- The count the spec describes: eligible (non-excluded) files of the
pruned traversal — the claim says the progress denominator is this
count. -/
def specEligibleCount (patterns : List String) (t : FSTree) (root : String) : Nat :=
  succCountT patterns (fun _ => false) t root

/-- C6 counterexample: on `{a.txt, .git/x}` with default exclusions the
pre-pass total is 2 (`os.walk` without pruning counts the excluded
`.git/x` too), so the sink is called with `(1, 2)`, while the eligible
file count is 1 — the claimed `(copiedSoFar, eligibleTotal)` pair
`(1, 1)` is not what the sink receives. -/
theorem C6_counterexample :
    (copy_directory "/data/proj" "/backups" "" demoTree false false true
        "20240101_120000" "backup" (fun _ => false)).progress = [(1, 2)] ∧
    specEligibleCount (parse_exclude_patterns "") demoTree "/data/proj" = 1 ∧
    (copy_directory "/data/proj" "/backups" "" demoTree false false true
        "20240101_120000" "backup" (fun _ => false)).progress ≠
      [(1, specEligibleCount (parse_exclude_patterns "") demoTree "/data/proj")] := by
  decide

/-- C6 (amended): the progress sink is invoked synchronously exactly
once after each successful file copy, the k-th invocation receiving
`(k, total)` — but `total` is the pre-pass count of ALL files in the
source tree (`os.walk` without exclusion filtering), not the eligible
count.  Holds for Backup kind and for Deploy kind runs that proceed. -/
theorem C6_progress_amended :
    (∀ (source destination raw timestamp : String) (tree : FSTree)
        (fails : String → Bool) (destExists destNonEmpty decision : Bool),
      (copy_directory source destination raw tree destExists destNonEmpty decision
          timestamp "backup" fails).progress =
        (List.range (succCountT (parse_exclude_patterns raw) fails tree source)).map
          (fun i => (i + 1, totalFiles tree))) ∧
    (∀ (source destination raw timestamp : String) (tree : FSTree)
        (fails : String → Bool) (destExists destNonEmpty : Bool),
      (copy_directory source destination raw tree destExists destNonEmpty true
          timestamp "runtime" fails).progress =
        (List.range (succCountT (parse_exclude_patterns raw) fails tree source)).map
          (fun i => (i + 1, totalFiles tree))) := by
  constructor
  · intro source destination raw timestamp tree fails de dne dec
    have h := (walkT_spec (parse_exclude_patterns raw) fails (totalFiles tree) tree
      source (joinP destination (pathName source ++ "_" ++ timestamp)) 0).2
    simp [copy_directory, h]
  · intro source destination raw timestamp tree fails de dne
    have h := (walkT_spec (parse_exclude_patterns raw) fails (totalFiles tree) tree
      source destination 0).2
    by_cases hd : (de && dne) = true
    · simp [copy_directory, hd, h]
    · simp [copy_directory, hd, h]

/-! ## Path-segment lemmas for the pruned walk -/

theorem strData_append (a b : String) : (a ++ b).data = a.data ++ b.data := rfl

theorem pathCoreData_append (a b : List Char) :
    pathCoreData (a ++ '/' :: b) = pathCoreData a ++ pathCoreData b := by
  simp [pathCoreData, splitOnChar_append, List.filter_append]

theorem pathCoreData_snoc_slash (a : List Char) :
    pathCoreData (a ++ ['/']) = pathCoreData a := by
  have h := pathCoreData_append a []
  simpa [pathCoreData, splitOnChar, keepComp] using h

theorem strEndsSlash_decomp {s : String} (h : strEndsSlash s = true) :
    ∃ l, s.data = l ++ ['/'] := by
  unfold strEndsSlash at h
  rcases hg : s.data.getLast? with _ | c
  · rw [hg] at h
    simp at h
  · rw [hg] at h
    simp only [beq_iff_eq] at h
    subst h
    refine ⟨s.data.dropLast, ?_⟩
    exact (List.dropLast_append_getLast? _ (by rw [hg]; rfl)).symm

theorem strStartsSlash_append_left {r : String} (hr : r.data ≠ []) (n : String) :
    strStartsSlash (r ++ n) = strStartsSlash r := by
  unfold strStartsSlash
  rw [strData_append]
  rcases hd : r.data with _ | ⟨c, cs⟩
  · exact absurd hd hr
  · rfl

theorem goodName_not_startsSlash {n : String} (h : goodNameB n = true) :
    strStartsSlash n = false := by
  unfold goodNameB at h
  rw [Bool.and_eq_true] at h
  obtain ⟨h1, h2⟩ := h
  unfold strStartsSlash
  rcases hd : n.data with _ | ⟨c, cs⟩
  · rfl
  · have hnm : ('/' : Char) ∉ n.data := by
      intro hmem
      have hc : n.data.contains '/' = true := List.elem_iff.mpr hmem
      rw [hc] at h2
      simp at h2
    rw [hd] at hnm
    simp only [List.mem_cons, not_or] at hnm
    exact beq_eq_false_iff_ne.mpr (fun hc => hnm.1 hc.symm)

theorem pathParts_empty : pathParts "" = [] := rfl

theorem pathParts_joinP (r n : String) (hn : strStartsSlash n = false) :
    pathParts (joinP r n) =
      pathParts r ++ (pathCoreData n.data).map (fun c => (⟨c⟩ : String)) := by
  unfold joinP
  rw [hn]
  simp only [Bool.false_eq_true, if_false]
  by_cases h0 : r = ""
  · subst h0
    rw [if_pos (by rfl)]
    have hcat : ("" : String) ++ n = n := by
      apply String.ext
      rw [strData_append]
      rfl
    rw [hcat, pathParts_empty, List.nil_append]
    unfold pathParts
    rw [hn]
    simp [pathCore, pathCoreData]
  · have hr : r.data ≠ [] := by
      intro hc
      exact h0 (String.ext hc)
    have hbe : (r == "") = false := beq_eq_false_iff_ne.mpr h0
    by_cases h1 : strEndsSlash r = true
    · rw [if_pos (by rw [hbe, h1]; rfl)]
      obtain ⟨l, hl⟩ := strEndsSlash_decomp h1
      have hdata : (r ++ n).data = l ++ '/' :: n.data := by
        rw [strData_append, hl, List.append_assoc]
        rfl
      unfold pathParts pathCore
      rw [strStartsSlash_append_left hr n, hdata, pathCoreData_append, hl,
        pathCoreData_snoc_slash]
      simp [List.append_assoc]
    · rw [if_neg (by rw [hbe, Bool.not_eq_true] at *; rw [h1]; rfl)]
      have hdata : (r ++ "/" ++ n).data = r.data ++ '/' :: n.data := by
        rw [strData_append, strData_append, List.append_assoc]
        rfl
      have hs : strStartsSlash (r ++ "/" ++ n) = strStartsSlash r := by
        unfold strStartsSlash
        rw [hdata]
        rcases hd : r.data with _ | ⟨c, cs⟩
        · exact absurd hd hr
        · rfl
      unfold pathParts pathCore
      rw [hs, hdata, pathCoreData_append]
      simp [List.append_assoc]

theorem pathParts_joinP_mono {r : String} {x : String} (n : String)
    (hn : strStartsSlash n = false) (hx : x ∈ pathParts r) :
    x ∈ pathParts (joinP r n) := by
  rw [pathParts_joinP r n hn]
  exact List.mem_append_left _ hx

theorem fileSucc_zero {pats : List String} {fails : String → Bool} {root : String}
    {files : List (String × String)} {x : String}
    (hx : x ∈ pats) (hroot : x ∈ pathParts root)
    (hwf : files.all (fun f => goodNameB f.1) = true) :
    fileSucc pats fails root files = 0 := by
  unfold fileSucc
  rw [List.length_eq_zero, List.filter_eq_nil_iff]
  intro f hf
  have hg : goodNameB f.1 = true := by
    rw [List.all_eq_true] at hwf
    exact hwf f hf
  have hexc : should_exclude (joinP root f.1) pats = true :=
    should_exclude_of_segment hx
      (pathParts_joinP_mono f.1 (goodName_not_startsSlash hg) hroot)
  simp [hexc]

theorem succCountL_zero (pats : List String) (fails : String → Bool) (x : String)
    (hx : x ∈ pats) :
    ∀ (l : DirList) (root : String), wfDirs l = true → x ∈ pathParts root →
      succCountL pats fails l root = 0
  | .nil, root, _, _ => rfl
  | .cons name t rest, root, hwf, hroot => by
    unfold wfDirs at hwf
    rw [Bool.and_eq_true, Bool.and_eq_true] at hwf
    obtain ⟨⟨hg, _⟩, hwr⟩ := hwf
    have hexc : should_exclude (joinP root name) pats = true :=
      should_exclude_of_segment hx
        (pathParts_joinP_mono name (goodName_not_startsSlash hg) hroot)
    unfold succCountL
    rw [if_pos hexc, succCountL_zero pats fails x hx rest root hwr hroot]

theorem succCountT_zero (pats : List String) (fails : String → Bool) (x : String)
    (hx : x ∈ pats) (t : FSTree) (root : String) (hwf : wfTree t = true)
    (hroot : x ∈ pathParts root) : succCountT pats fails t root = 0 := by
  cases t with
  | node files dirs =>
    unfold wfTree at hwf
    rw [Bool.and_eq_true] at hwf
    unfold succCountT
    rw [fileSucc_zero hx hroot hwf.1, succCountL_zero pats fails x hx dirs root hwf.2 hroot]

theorem copyFiles_effects_all_excluded (pats : List String) (fails : String → Bool)
    (total : Nat) (root destDir : String) :
    ∀ (files : List (String × String)) (copied : Nat),
      (∀ f ∈ files, should_exclude (joinP root f.1) pats = true) →
      (copyFiles pats fails total root destDir copied files).effects = []
  | [], _, _ => rfl
  | (fname, content) :: rest, copied, h => by
    have hx := h (fname, content) (List.mem_cons_self _ _)
    unfold copyFiles
    rw [if_pos hx]
    exact copyFiles_effects_all_excluded pats fails total root destDir rest copied
      (fun f hf => h f (List.mem_cons_of_mem _ hf))

theorem walkL_effects_zero (pats : List String) (fails : String → Bool) (total : Nat)
    (x : String) (hx : x ∈ pats) :
    ∀ (l : DirList) (root destDir : String) (copied : Nat),
      wfDirs l = true → x ∈ pathParts root →
      (walkL pats fails total l root destDir copied).effects = []
  | .nil, _, _, _, _, _ => rfl
  | .cons name t rest, root, destDir, copied, hwf, hroot => by
    unfold wfDirs at hwf
    rw [Bool.and_eq_true, Bool.and_eq_true] at hwf
    obtain ⟨⟨hg, _⟩, hwr⟩ := hwf
    have hexc : should_exclude (joinP root name) pats = true :=
      should_exclude_of_segment hx
        (pathParts_joinP_mono name (goodName_not_startsSlash hg) hroot)
    unfold walkL
    rw [if_pos hexc]
    exact walkL_effects_zero pats fails total x hx rest root destDir copied hwr hroot

theorem walkT_effects_zero (pats : List String) (fails : String → Bool) (total : Nat)
    (x : String) (hx : x ∈ pats) (t : FSTree) (root destDir : String) (copied : Nat)
    (hwf : wfTree t = true) (hroot : x ∈ pathParts root) :
    (walkT pats fails total t root destDir copied).effects = [Effect.mkdirs destDir] := by
  cases t with
  | node files dirs =>
    unfold wfTree at hwf
    rw [Bool.and_eq_true] at hwf
    have hfe : ∀ f ∈ files, should_exclude (joinP root f.1) pats = true := by
      intro f hf
      have hg : goodNameB f.1 = true := by
        have := hwf.1
        rw [List.all_eq_true] at this
        exact this f hf
      exact should_exclude_of_segment hx
        (pathParts_joinP_mono f.1 (goodName_not_startsSlash hg) hroot)
    unfold walkT
    simp only [copyFiles_effects_all_excluded pats fails total root destDir files copied hfe]
    rw [walkL_effects_zero pats fails total x hx dirs root destDir _ hwf.2 hroot]
    rfl

/-- C10: when a segment of the source root's own path equals an
exclusion pattern, exclusion matching (which runs on the absolute
candidate paths) rejects every file and subdirectory: the declarative
copy count is 0, any `ok` result of `replicate` carries `copiedCount`
0, and the effect trace contains no file write at all. -/
theorem C10_source_ancestor_segment_excludes_all :
    ∀ (source destination raw timestamp : String) (tree : FSTree)
      (destExists destNonEmpty decision : Bool) (operation_type : String)
      (fails : String → Bool) (x : String),
      wfTree tree = true → x ∈ parse_exclude_patterns raw → x ∈ pathParts source →
      succCountT (parse_exclude_patterns raw) fails tree source = 0 ∧
      (∀ (c : Nat) (d : String),
        (copy_directory source destination raw tree destExists destNonEmpty decision
          timestamp operation_type fails).result = .ok (c, d) → c = 0) ∧
      (∀ (p cont : String),
        Effect.write p cont ∉
          (copy_directory source destination raw tree destExists destNonEmpty decision
            timestamp operation_type fails).effects) := by
  intro source destination raw timestamp tree de dne dec ty fails x hwf hxp hxs
  have h0 := succCountT_zero _ fails x hxp tree source hwf hxs
  refine ⟨h0, ?_, ?_⟩
  · intro c d h
    by_cases hb : (ty == "backup") = true
    · rw [show (copy_directory source destination raw tree de dne dec timestamp ty
          fails).result = (walkT (parse_exclude_patterns raw) fails (totalFiles tree)
            tree source (joinP destination (pathName source ++ "_" ++ timestamp)) 0).result
          from by simp [copy_directory, hb],
        (walkT_spec _ fails (totalFiles tree) tree source _ 0).1, h0] at h
      exact (by simpa using h : (0 : Nat) = c ∧ _).1.symm
    · by_cases hdd : (de && dne) = true
      · by_cases hdec : dec = true
        · rw [show (copy_directory source destination raw tree de dne dec timestamp ty
              fails).result = (walkT (parse_exclude_patterns raw) fails (totalFiles tree)
                tree source destination 0).result
              from by simp [copy_directory, hb, hdd, hdec],
            (walkT_spec _ fails (totalFiles tree) tree source _ 0).1, h0] at h
          exact (by simpa using h : (0 : Nat) = c ∧ _).1.symm
        · rw [show (copy_directory source destination raw tree de dne dec timestamp ty
              fails).result = .error cancelMsg
              from by simp [copy_directory, hb, hdd, hdec]] at h
          exact absurd h (by simp)
      · rw [show (copy_directory source destination raw tree de dne dec timestamp ty
            fails).result = (walkT (parse_exclude_patterns raw) fails (totalFiles tree)
              tree source destination 0).result
            from by simp [copy_directory, hb, hdd],
          (walkT_spec _ fails (totalFiles tree) tree source _ 0).1, h0] at h
        exact (by simpa using h : (0 : Nat) = c ∧ _).1.symm
  · intro p cont
    by_cases hb : (ty == "backup") = true
    · rw [show (copy_directory source destination raw tree de dne dec timestamp ty
          fails).effects = Effect.mkdirs (joinP destination (pathName source ++ "_" ++
            timestamp)) :: (walkT (parse_exclude_patterns raw) fails (totalFiles tree)
            tree source (joinP destination (pathName source ++ "_" ++ timestamp))
            0).effects from by simp [copy_directory, hb],
        walkT_effects_zero _ fails _ x hxp tree source _ 0 hwf hxs]
      simp
    · by_cases hdd : (de && dne) = true
      · by_cases hdec : dec = true
        · rw [show (copy_directory source destination raw tree de dne dec timestamp ty
              fails).effects = Effect.rmtree destination :: Effect.mkdirs destination ::
                (walkT (parse_exclude_patterns raw) fails (totalFiles tree) tree source
                destination 0).effects from by simp [copy_directory, hb, hdd, hdec],
            walkT_effects_zero _ fails _ x hxp tree source _ 0 hwf hxs]
          simp
        · rw [show (copy_directory source destination raw tree de dne dec timestamp ty
              fails).effects = [] from by simp [copy_directory, hb, hdd, hdec]]
          simp
      · rw [show (copy_directory source destination raw tree de dne dec timestamp ty
            fails).effects = Effect.mkdirs destination ::
              (walkT (parse_exclude_patterns raw) fails (totalFiles tree) tree source
              destination 0).effects from by simp [copy_directory, hb, hdd],
          walkT_effects_zero _ fails _ x hxp tree source _ 0 hwf hxs]
        simp

/-- C10 witness: a source living under a parent directory named `bin`
(a default pattern) copies nothing. -/
theorem C10_source_ancestor_segment_witness :
    succCountT (parse_exclude_patterns "") (fun _ => false) demoTree
      "/home/user/bin/proj" = 0 :=
  (C10_source_ancestor_segment_excludes_all "/home/user/bin/proj" "/b" "" "TS" demoTree
    false false true "backup" (fun _ => false) "bin" (by decide) (by decide) (by decide)).1

/-! ## Under-directory reasoning for the Backup-kind effect trace -/

/-- Proposition that `p` is the directory `d` itself or lies strictly below it
(`p = d` or `p` starts with `d ++ "/"`). -/
def UnderEq (d p : String) : Prop := p = d ∨ ∃ r, p.data = d.data ++ '/' :: r

theorem underEq_refl (d : String) : UnderEq d d := Or.inl rfl

theorem underEq_trans {a b c : String} (h1 : UnderEq a b) (h2 : UnderEq b c) :
    UnderEq a c := by
  rcases h2 with h2 | ⟨r2, hr2⟩
  · subst h2
    exact h1
  · rcases h1 with h1 | ⟨r1, hr1⟩
    · subst h1
      exact Or.inr ⟨r2, hr2⟩
    · refine Or.inr ⟨r1 ++ '/' :: r2, ?_⟩
      rw [hr2, hr1, List.append_assoc]
      simp

/-- A usable destination-directory path: non-empty and without a
trailing separator. -/
def GoodDir (d : String) : Prop := d.data ≠ [] ∧ strEndsSlash d = false

/-- Every effect the walk emits for destination directory `dd` is a
directory creation or file write at or below `dd` — never an `rmtree`. -/
def EffInside (dd : String) : Effect → Prop
  | .rmtree _ => False
  | .mkdirs p => UnderEq dd p
  | .write p _ => UnderEq dd p

theorem effInside_mono {d1 d2 : String} (h : UnderEq d1 d2) :
    ∀ {e : Effect}, EffInside d2 e → EffInside d1 e
  | .rmtree _, hi => hi.elim
  | .mkdirs _, hi => underEq_trans h hi
  | .write _ _, hi => underEq_trans h hi

theorem goodName_no_slash {n : String} (h : goodNameB n = true) :
    ('/' : Char) ∉ n.data := by
  unfold goodNameB at h
  rw [Bool.and_eq_true] at h
  intro hmem
  have hc : n.data.contains '/' = true := List.elem_iff.mpr hmem
  rw [hc] at h
  simp at h

theorem goodName_data_ne_nil {n : String} (h : goodNameB n = true) : n.data ≠ [] := by
  unfold goodNameB at h
  rw [Bool.and_eq_true] at h
  intro hc
  have : n = "" := String.ext hc
  rw [this] at h
  simp at h

theorem joinP_eq_of_good {d n : String} (hd : GoodDir d) (hn : goodNameB n = true) :
    joinP d n = d ++ "/" ++ n := by
  unfold joinP
  rw [goodName_not_startsSlash hn]
  have h0 : (d == "") = false :=
    beq_eq_false_iff_ne.mpr (fun hc => hd.1 (by simp [hc]))
  rw [h0, hd.2]
  simp

theorem underEq_joinP_good {d n : String} (hd : GoodDir d) (hn : goodNameB n = true) :
    UnderEq d (joinP d n) := by
  rw [joinP_eq_of_good hd hn]
  refine Or.inr ⟨n.data, ?_⟩
  rw [strData_append, strData_append]
  simp

theorem goodDir_joinP {d n : String} (hd : GoodDir d) (hn : goodNameB n = true) :
    GoodDir (joinP d n) := by
  rw [joinP_eq_of_good hd hn]
  have hdata : (d ++ "/" ++ n).data = d.data ++ '/' :: n.data := by
    rw [strData_append, strData_append, List.append_assoc]
    rfl
  constructor
  · rw [hdata]
    simp
  · unfold strEndsSlash
    rw [hdata]
    have hnn : n.data ≠ [] := goodName_data_ne_nil hn
    have hlast : (d.data ++ '/' :: n.data).getLast? = n.data.getLast? := by
      rw [show d.data ++ '/' :: n.data = (d.data ++ ['/']) ++ n.data by simp,
        List.getLast?_append_of_ne_nil _ hnn]
    rw [hlast]
    rcases hg : n.data.getLast? with _ | c
    · exact absurd (List.getLast?_eq_none_iff.mp hg) hnn
    · have hcm : c ∈ n.data := by
        have := List.dropLast_append_getLast? c (by rw [hg]; rfl)
        rw [← this]
        exact List.mem_append_right _ (List.mem_cons_self _ _)
      exact beq_eq_false_iff_ne.mpr (fun hc => goodName_no_slash hn (hc ▸ hcm))

theorem copyFiles_effects_inside (pats : List String) (fails : String → Bool)
    (total : Nat) (root dd : String) (hdd : GoodDir dd) :
    ∀ (files : List (String × String)) (copied : Nat),
      files.all (fun f => goodNameB f.1) = true →
      ∀ e ∈ (copyFiles pats fails total root dd copied files).effects, EffInside dd e
  | [], copied, _, e, he => absurd he (by simp [copyFiles])
  | (fname, content) :: rest, copied, hwf, e, he => by
    rw [List.all_cons, Bool.and_eq_true] at hwf
    unfold copyFiles at he
    by_cases h1 : should_exclude (joinP root fname) pats = true
    · rw [if_pos h1] at he
      exact copyFiles_effects_inside pats fails total root dd hdd rest copied hwf.2 e he
    · rw [if_neg h1] at he
      by_cases h2 : fails (joinP root fname) = true
      · rw [if_pos h2] at he
        exact copyFiles_effects_inside pats fails total root dd hdd rest copied hwf.2 e he
      · rw [if_neg h2] at he
        simp only [List.mem_cons] at he
        rcases he with rfl | he
        · exact underEq_joinP_good hdd hwf.1
        · exact copyFiles_effects_inside pats fails total root dd hdd rest (copied + 1)
            hwf.2 e he

mutual
theorem walkT_effects_inside (pats : List String) (fails : String → Bool) (total : Nat) :
    ∀ (t : FSTree) (root dd : String) (copied : Nat), wfTree t = true → GoodDir dd →
      ∀ e ∈ (walkT pats fails total t root dd copied).effects, EffInside dd e
  | .node files dirs, root, dd, copied, hwf, hdd, e, he => by
    unfold wfTree at hwf
    rw [Bool.and_eq_true] at hwf
    unfold walkT at he
    simp only [List.mem_cons, List.mem_append] at he
    rcases he with rfl | he | he
    · exact underEq_refl dd
    · exact copyFiles_effects_inside pats fails total root dd hdd files copied hwf.1 e he
    · exact walkL_effects_inside pats fails total dirs root dd _ hwf.2 hdd e he
theorem walkL_effects_inside (pats : List String) (fails : String → Bool) (total : Nat) :
    ∀ (l : DirList) (root dd : String) (copied : Nat), wfDirs l = true → GoodDir dd →
      ∀ e ∈ (walkL pats fails total l root dd copied).effects, EffInside dd e
  | .nil, _, _, _, _, _, e, he => absurd he (by simp [walkL])
  | .cons name t rest, root, dd, copied, hwf, hdd, e, he => by
    unfold wfDirs at hwf
    rw [Bool.and_eq_true, Bool.and_eq_true] at hwf
    obtain ⟨⟨hg, hwt⟩, hwr⟩ := hwf
    unfold walkL at he
    by_cases hx : should_exclude (joinP root name) pats = true
    · rw [if_pos hx] at he
      exact walkL_effects_inside pats fails total rest root dd copied hwr hdd e he
    · rw [if_neg hx] at he
      simp only [List.mem_append] at he
      rcases he with he | he
      · exact effInside_mono (underEq_joinP_good hdd hg)
          (walkT_effects_inside pats fails total t (joinP root name) (joinP dd name)
            copied hwt (goodDir_joinP hdd hg) e he)
      · exact walkL_effects_inside pats fails total rest root dd _ hwr hdd e he
end

theorem splitOnChar_no_sep (sep : Char) :
    ∀ (l : List Char), ∀ c ∈ splitOnChar sep l, sep ∉ c
  | [], c, hc => by
    simp only [splitOnChar, List.mem_singleton] at hc
    subst hc
    simp
  | a :: as, c, hc => by
    by_cases h : a = sep
    · subst h
      have hrw : splitOnChar a (a :: as) = [] :: splitOnChar a as := by
        simp [splitOnChar]
      rw [hrw, List.mem_cons] at hc
      rcases hc with rfl | hc
      · simp
      · exact splitOnChar_no_sep a as c hc
    · rcases hcs : splitOnChar sep as with _ | ⟨h0, t0⟩
      · exact absurd hcs (splitOnChar_ne_nil sep as)
      · have hrw : splitOnChar sep (a :: as) = (a :: h0) :: t0 := by
          simp [splitOnChar, h, hcs]
        rw [hrw, List.mem_cons] at hc
        rcases hc with rfl | hc
        · intro hmem
          rcases List.mem_cons.mp hmem with h' | h'
          · exact h h'.symm
          · exact splitOnChar_no_sep sep as h0 (by rw [hcs]; exact List.mem_cons_self _ _) h'
        · exact splitOnChar_no_sep sep as c (by rw [hcs]; exact List.mem_cons_of_mem _ hc)

theorem pathName_no_slash (s : String) : ('/' : Char) ∉ (pathName s).data := by
  unfold pathName
  rcases hg : (pathCore s).getLast? with _ | c
  · simp
  · intro hmem
    have hc : c ∈ pathCore s := by
      have hd := List.dropLast_append_getLast? c (by rw [hg]; rfl)
      rw [← hd]
      exact List.mem_append_right _ (List.mem_cons_self _ _)
    have hc2 : c ∈ splitOnChar '/' s.data := List.mem_of_mem_filter hc
    exact splitOnChar_no_sep '/' s.data c hc2 hmem

/-- The Backup-kind final destination:
`os.path.join(destination, f"{project_name}_{timestamp}")`. -/
def backupDest (source destination ts : String) : String :=
  joinP destination (pathName source ++ "_" ++ ts)

theorem backupName_data (source ts : String) :
    (pathName source ++ "_" ++ ts).data = (pathName source).data ++ '_' :: ts.data := by
  rw [strData_append, strData_append, List.append_assoc]
  rfl

theorem backupName_not_startsSlash (source ts : String) :
    strStartsSlash (pathName source ++ "_" ++ ts) = false := by
  unfold strStartsSlash
  rw [backupName_data]
  rcases hd : (pathName source).data with _ | ⟨c, cs⟩
  · rfl
  · have : c ≠ '/' := fun hc => pathName_no_slash source (by rw [hd, hc]; exact List.mem_cons_self _ _)
    simpa using fun hc => this hc

/-- The leading part of `backupDest`'s character list that does not
depend on the timestamp. -/
def backupDestStem (source destination : String) : List Char :=
  (if destination == "" || strEndsSlash destination then destination.data
   else destination.data ++ ['/']) ++ (pathName source).data ++ ['_']

theorem backupDest_data (source destination ts : String) :
    (backupDest source destination ts).data = backupDestStem source destination ++ ts.data := by
  unfold backupDest joinP backupDestStem
  rw [backupName_not_startsSlash]
  simp only [Bool.false_eq_true, if_false]
  by_cases h : (destination == "" || strEndsSlash destination) = true
  · rw [if_pos h, h]
    simp [strData_append, backupName_data, List.append_assoc]
  · rw [if_neg h, eq_false_of_ne_true h]
    simp [strData_append, backupName_data, List.append_assoc]

/-- Cancelling slash-free stems against root-or-below extensions: if two
slash-free component strings extended by nothing or by a
slash-initiated remainder coincide, the components coincide. -/
theorem noSlash_ext_cancel :
    ∀ (t1 t2 e1 e2 : List Char), ('/' : Char) ∉ t1 → ('/' : Char) ∉ t2 →
      (e1 = [] ∨ ∃ r, e1 = '/' :: r) → (e2 = [] ∨ ∃ r, e2 = '/' :: r) →
      t1 ++ e1 = t2 ++ e2 → t1 = t2
  | [], t2, e1, e2, _, h2, he1, _, heq => by
    cases t2 with
    | nil => rfl
    | cons c cs =>
      exfalso
      rw [List.nil_append, List.cons_append] at heq
      rcases he1 with rfl | ⟨r, rfl⟩
      · simp at heq
      · injection heq with hc _
        exact h2 (by rw [← hc]; exact List.mem_cons_self _ _)
  | c1 :: t1, t2, e1, e2, h1, h2, he1, he2, heq => by
    cases t2 with
    | nil =>
      exfalso
      rw [List.nil_append, List.cons_append] at heq
      rcases he2 with rfl | ⟨r, rfl⟩
      · simp at heq
      · injection heq with hc _
        exact h1 (by rw [hc]; exact List.mem_cons_self _ _)
    | cons c2 t2 =>
      rw [List.cons_append, List.cons_append] at heq
      injection heq with hc ht
      subst hc
      rw [noSlash_ext_cancel t1 t2 e1 e2 (fun hm => h1 (List.mem_cons_of_mem _ hm))
        (fun hm => h2 (List.mem_cons_of_mem _ hm)) he1 he2 ht]

theorem underEq_data {d p : String} (h : UnderEq d p) :
    ∃ e, p.data = d.data ++ e ∧ (e = [] ∨ ∃ r, e = '/' :: r) := by
  rcases h with rfl | ⟨r, hr⟩
  · exact ⟨[], by simp, Or.inl rfl⟩
  · exact ⟨'/' :: r, hr, Or.inr ⟨r, rfl⟩⟩

theorem backupDest_disjoint {source destination ts1 ts2 : String}
    (hne : ts1 ≠ ts2) (h1 : ('/' : Char) ∉ ts1.data) (h2 : ('/' : Char) ∉ ts2.data) :
    ∀ p q, UnderEq (backupDest source destination ts1) p →
      UnderEq (backupDest source destination ts2) q → p ≠ q := by
  intro p q hp hq hpq
  obtain ⟨e1, hp1, hp2⟩ := underEq_data hp
  obtain ⟨e2, hq1, hq2⟩ := underEq_data hq
  rw [backupDest_data, List.append_assoc] at hp1 hq1
  subst hpq
  rw [hp1] at hq1
  have hcan := List.append_cancel_left hq1
  have := noSlash_ext_cancel ts1.data ts2.data e1 e2 h1 h2 hp2 hq2 hcan
  exact hne (String.ext this)

theorem backupDest_goodDir (source destination : String) {ts : String}
    (hts : ('/' : Char) ∉ ts.data) : GoodDir (backupDest source destination ts) := by
  constructor
  · rw [backupDest_data]
    intro hc
    rcases List.append_eq_nil.mp hc with ⟨ha, _⟩
    unfold backupDestStem at ha
    rcases List.append_eq_nil.mp ha with ⟨_, hb⟩
    exact List.cons_ne_nil _ _ hb
  · unfold strEndsSlash
    rw [backupDest_data, List.getLast?_append]
    rcases hg : ts.data.getLast? with _ | c
    · simp only [Option.none_or]
      have hstem : (backupDestStem source destination).getLast? = some '_' := by
        unfold backupDestStem
        rw [List.getLast?_append_of_ne_nil _ (by simp)]
        rfl
      rw [hstem]
      rfl
    · simp only [Option.or]
      have hcm : c ∈ ts.data := by
        have hd := List.dropLast_append_getLast? c (by rw [hg]; rfl)
        rw [← hd]
        exact List.mem_append_right _ (List.mem_cons_self _ _)
      exact beq_eq_false_iff_ne.mpr (fun hc => hts (hc ▸ hcm))

theorem applyEffects_untouched {dd2 : String} :
    ∀ (es : List Effect) (fs : String → Option String) (p : String),
      (∀ e ∈ es, EffInside dd2 e) → (∀ q, UnderEq dd2 q → p ≠ q) →
      applyEffects es fs p = fs p
  | [], _, _, _, _ => rfl
  | e :: es, fs, p, hin, hdisj => by
    have hstep : applyEffect fs e p = fs p := by
      cases e with
      | mkdirs q => rfl
      | write q c =>
        have hq := hin _ (List.mem_cons_self _ _)
        have hne : p ≠ q := hdisj q hq
        simp [applyEffect, beq_eq_false_iff_ne.mpr hne]
      | rmtree q => exact (hin _ (List.mem_cons_self _ _)).elim
    have hrec := applyEffects_untouched es (applyEffect fs e) p
      (fun e' he' => hin e' (List.mem_cons_of_mem _ he')) hdisj
    unfold applyEffects at hrec ⊢
    rw [List.foldl_cons, hrec, hstep]

theorem backup_run_effects (source destination raw ts : String) (tree : FSTree)
    (de dne dec : Bool) (fails : String → Bool) :
    (copy_directory source destination raw tree de dne dec ts "backup" fails).effects =
      Effect.mkdirs (backupDest source destination ts) ::
        (walkT (parse_exclude_patterns raw) fails (totalFiles tree) tree source
          (backupDest source destination ts) 0).effects := by
  simp [copy_directory, backupDest]

theorem backup_run_result (source destination raw ts : String) (tree : FSTree)
    (de dne dec : Bool) (fails : String → Bool) :
    (copy_directory source destination raw tree de dne dec ts "backup" fails).result =
      .ok (succCountT (parse_exclude_patterns raw) fails tree source,
        backupDest source destination ts) := by
  have h := (walkT_spec (parse_exclude_patterns raw) fails (totalFiles tree) tree
    source (backupDest source destination ts) 0).1
  simp [copy_directory, backupDest] at h ⊢
  rw [h]

/-- C5: for Backup kind the final destination is
`os.path.join(destination, sourceDirName ++ "_" ++ timestamp)`, and two
sequential Backup runs whose timestamps differ (the timestamp is an
opaque `strftime("%Y%m%d_%H%M%S")` string, so it contains no path
separator) write into two distinct directories: no effect of either run
is an `rmtree`, every effect stays inside that run's own fresh
destination directory, and the second run leaves every path at or below
the first run's destination untouched — backups are additive. -/
theorem C5_backup_versioned_additive :
    ∀ (source destination raw ts1 ts2 : String) (tree1 tree2 : FSTree)
      (fails1 fails2 : String → Bool) (de1 dne1 dec1 de2 dne2 dec2 : Bool)
      (fs0 : String → Option String),
      ts1 ≠ ts2 → ('/' : Char) ∉ ts1.data → ('/' : Char) ∉ ts2.data →
      wfTree tree1 = true → wfTree tree2 = true →
      (copy_directory source destination raw tree1 de1 dne1 dec1 ts1 "backup"
          fails1).result =
        .ok (succCountT (parse_exclude_patterns raw) fails1 tree1 source,
          backupDest source destination ts1) ∧
      (copy_directory source destination raw tree2 de2 dne2 dec2 ts2 "backup"
          fails2).result =
        .ok (succCountT (parse_exclude_patterns raw) fails2 tree2 source,
          backupDest source destination ts2) ∧
      backupDest source destination ts1 ≠ backupDest source destination ts2 ∧
      (∀ p, Effect.rmtree p ∉
          (copy_directory source destination raw tree1 de1 dne1 dec1 ts1 "backup"
            fails1).effects ∧
        Effect.rmtree p ∉
          (copy_directory source destination raw tree2 de2 dne2 dec2 ts2 "backup"
            fails2).effects) ∧
      (∀ e ∈ (copy_directory source destination raw tree1 de1 dne1 dec1 ts1 "backup"
          fails1).effects, EffInside (backupDest source destination ts1) e) ∧
      (∀ e ∈ (copy_directory source destination raw tree2 de2 dne2 dec2 ts2 "backup"
          fails2).effects, EffInside (backupDest source destination ts2) e) ∧
      (∀ p, UnderEq (backupDest source destination ts1) p →
        applyEffects
          (copy_directory source destination raw tree2 de2 dne2 dec2 ts2 "backup"
            fails2).effects
          (applyEffects
            (copy_directory source destination raw tree1 de1 dne1 dec1 ts1 "backup"
              fails1).effects fs0) p =
        applyEffects
          (copy_directory source destination raw tree1 de1 dne1 dec1 ts1 "backup"
            fails1).effects fs0 p) := by
  intro source destination raw ts1 ts2 tree1 tree2 fails1 fails2
    de1 dne1 dec1 de2 dne2 dec2 fs0 hne hs1 hs2 hwf1 hwf2
  have hgd1 := backupDest_goodDir source destination hs1
  have hgd2 := backupDest_goodDir source destination hs2
  have hin1 : ∀ e ∈ (copy_directory source destination raw tree1 de1 dne1 dec1 ts1
      "backup" fails1).effects, EffInside (backupDest source destination ts1) e := by
    rw [backup_run_effects]
    intro e he
    rcases List.mem_cons.mp he with rfl | he
    · exact underEq_refl _
    · exact walkT_effects_inside _ fails1 _ tree1 source _ 0 hwf1 hgd1 e he
  have hin2 : ∀ e ∈ (copy_directory source destination raw tree2 de2 dne2 dec2 ts2
      "backup" fails2).effects, EffInside (backupDest source destination ts2) e := by
    rw [backup_run_effects]
    intro e he
    rcases List.mem_cons.mp he with rfl | he
    · exact underEq_refl _
    · exact walkT_effects_inside _ fails2 _ tree2 source _ 0 hwf2 hgd2 e he
  refine ⟨backup_run_result _ _ _ _ _ _ _ _ _, backup_run_result _ _ _ _ _ _ _ _ _,
    ?_, ?_, hin1, hin2, ?_⟩
  · exact backupDest_disjoint hne hs1 hs2 _ _ (underEq_refl _) (underEq_refl _)
  · intro p
    constructor
    · intro hmem
      exact (hin1 _ hmem).elim
    · intro hmem
      exact (hin2 _ hmem).elim
  · intro p hp
    exact applyEffects_untouched _ _ p hin2
      (fun q hq => backupDest_disjoint hne hs1 hs2 p q hp hq)

/-- C5 witness: one concrete Backup run's result, obtained from the
theorem with all hypotheses discharged. -/
theorem C5_backup_versioned_additive_witness :
    (copy_directory "/data/proj" "/backups" "" demoTree false false true "A" "backup"
        (fun _ => false)).result =
      .ok (succCountT (parse_exclude_patterns "") (fun _ => false) demoTree "/data/proj",
        backupDest "/data/proj" "/backups" "A") :=
  (C5_backup_versioned_additive "/data/proj" "/backups" "" "A" "B" demoTree demoTree
    (fun _ => false) (fun _ => false) false false true false false true (fun _ => none)
    (by decide) (by decide) (by decide) (by decide) (by decide)).1
